import Mathlib

/-!
Shallow embedding of the `yudhasubki/wal` write-ahead log (Go) and proofs
about its operations.  Bytes are modelled as `Nat` (values below 256 in all
well-formed data); machine integers are `Nat`/`Int` with explicit `% 2^w`
where Go performs a truncating conversion.  File contents, the write buffer
and the bufio writer are byte lists; the filesystem side effects of a
function (fsync, unlink) are reflected in explicit state fields.
-/

namespace WalProof

/-- `blockSize` from wal.go: the 16-byte record header size. -/
def blockSize : Nat := 16

/-- The reflected CRC-32/IEEE polynomial used by Go `hash/crc32` (IEEE). -/
def crc32Poly : Nat := 0xEDB88320

/-- One bit step of the reflected CRC-32 algorithm. -/
def crc32Bit (c : Nat) : Nat :=
  if c % 2 = 1 then (c >>> 1) ^^^ crc32Poly else c >>> 1

/-- One byte step: xor the byte into the low bits, then eight bit steps.
This is the table-free form of Go `crc32.Update` for the IEEE polynomial. -/
def crc32Byte (c b : Nat) : Nat :=
  crc32Bit (crc32Bit (crc32Bit (crc32Bit (crc32Bit (crc32Bit (crc32Bit (crc32Bit (c ^^^ (b % 256)))))))))

/-- Go `crc32.ChecksumIEEE`: init 0xFFFFFFFF, byte steps, final xor. -/
def ChecksumIEEE (data : List Nat) : Nat :=
  (data.foldl crc32Byte 0xFFFFFFFF) ^^^ 0xFFFFFFFF

/-- Go `binary.BigEndian.PutUint64`: eight big-endian bytes of `n % 2^64`. -/
def be64 (n : Nat) : List Nat :=
  [(n >>> 56) &&& 255, (n >>> 48) &&& 255, (n >>> 40) &&& 255, (n >>> 32) &&& 255,
   (n >>> 24) &&& 255, (n >>> 16) &&& 255, (n >>> 8) &&& 255, n &&& 255]

/-- Go `binary.BigEndian.PutUint32`: four big-endian bytes of `n % 2^32`. -/
def be32 (n : Nat) : List Nat :=
  [(n >>> 24) &&& 255, (n >>> 16) &&& 255, (n >>> 8) &&& 255, n &&& 255]

/-- Go `binary.BigEndian.Uint32` on four bytes. -/
def be32val (b0 b1 b2 b3 : Nat) : Nat :=
  (b0 <<< 24) ||| (b1 <<< 16) ||| (b2 <<< 8) ||| b3

/-- Go `binary.BigEndian.Uint64` on eight bytes. -/
def be64val (b0 b1 b2 b3 b4 b5 b6 b7 : Nat) : Nat :=
  (b0 <<< 56) ||| (b1 <<< 48) ||| (b2 <<< 40) ||| (b3 <<< 32) |||
  (b4 <<< 24) ||| (b5 <<< 16) ||| (b6 <<< 8) ||| b7

deriving instance DecidableEq for Except

/-- `pos` from segment.go: one record position inside a segment. -/
structure Pos where
  offset : Nat
  length : Nat
  deriving Repr, DecidableEq

/-- `pos.EndOffset` from segment.go. -/
def Pos.EndOffset (p : Pos) : Nat := p.offset + blockSize + p.length

/-- `LogEntry` from wal.go (`Offset` is the total on-disk record size 16+L). -/
structure LogEntry where
  Offset : Nat
  Length : Nat
  Data : List Nat
  Checksum : Nat
  Timestamp : Nat
  deriving Repr, DecidableEq

/-- `Segment` from segment.go.  `fileBytes` is the durable file content behind
the `fd`; `writerPending` the bytes sitting in the segment's bufio writer.
`path` is modelled by the numeric segment index used in the file name. -/
structure Segment where
  index : Nat
  path : Nat
  size : Nat
  fileBytes : List Nat
  writerPending : List Nat
  offset : List Pos
  currSize : Nat
  modTime : Nat
  closed : Bool
  deriving Repr, DecidableEq

/-- A default segment used only as the `getD`/`getLastD` fallback. -/
def dummySeg : Segment :=
  { index := 0, path := 0, size := 0, fileBytes := [], writerPending := [],
    offset := [], currSize := 0, modTime := 0, closed := false }

/-- A default position used only as the `getD` fallback. -/
def dummyPos : Pos := { offset := 0, length := 0 }

/-- `Segment.OnActiveBuffer` from segment.go:
`s.offset[idx].offset > s.currSize || s.currSize == 0`.
An out-of-range `idx` is a Go panic; call sites keep it in range. -/
def Segment.OnActiveBuffer (s : Segment) (idx : Nat) : Bool :=
  decide (s.currSize < (s.offset.getD idx dummyPos).offset) || decide (s.currSize = 0)

/-- Modelled from the spec: the spec's classification of a record as lying in
the active write buffer, "iff `positions[i].offset ≥ durable_size`"
(spec §3 invariants).  Used to compare against `Segment.OnActiveBuffer`. -/
def OnActiveBufferSpec (s : Segment) (idx : Nat) : Bool :=
  decide (s.currSize ≤ (s.offset.getD idx dummyPos).offset)

/-- Error outcomes of the modelled operations. `eof` is Go `io.EOF`,
`unexpectedEOF` is `io.ErrUnexpectedEOF` (from `io.ReadFull`),
`checksumMismatch` the recovery error of `Segment.Read`, `notFound` the
`ReadIndex` miss, and `oob` marks a Go slice/index panic (never reached
from the states considered in the theorems below). -/
inductive RErr where
  | eof
  | unexpectedEOF
  | checksumMismatch
  | notFound
  | oob
  | ioErr
  deriving Repr, DecidableEq

/-- The big-endian length field at bytes 8..11 of a record header. -/
def lengthField (bs : List Nat) : Nat :=
  be32val (bs.getD 8 0) (bs.getD 9 0) (bs.getD 10 0) (bs.getD 11 0)

/-- `Segment.ReadEntry` from segment.go, over a byte list instead of a
`bufio.Reader`.  `io.ReadFull` semantics: a read of zero bytes at EOF is
`io.EOF`, a partial read is `io.ErrUnexpectedEOF`; a zero-length payload
read succeeds immediately. -/
def readEntry (bs : List Nat) : Except RErr (LogEntry × List Nat) :=
  if bs.length = 0 then .error .eof
  else if bs.length < 16 then .error .unexpectedEOF
  else
    let timestamp := be64val (bs.getD 0 0) (bs.getD 1 0) (bs.getD 2 0) (bs.getD 3 0)
                            (bs.getD 4 0) (bs.getD 5 0) (bs.getD 6 0) (bs.getD 7 0)
    let length := lengthField bs
    let checksum := be32val (bs.getD 12 0) (bs.getD 13 0) (bs.getD 14 0) (bs.getD 15 0)
    let rest := bs.drop 16
    if rest.length = 0 ∧ 0 < length then .error .eof
    else if rest.length < length then .error .unexpectedEOF
    else .ok ({ Offset := (blockSize + length) % 2 ^ 32, Timestamp := timestamp,
                Checksum := checksum, Data := rest.take length, Length := length },
              rest.drop length)

/-- `Segment.SeekOffset` from segment.go: seek the file to `offset` and decode
one record (a seek past EOF reads zero bytes, hence `io.EOF`). -/
def Segment.SeekOffset (s : Segment) (off : Nat) : Except RErr LogEntry :=
  match readEntry (s.fileBytes.drop off) with
  | .ok pr => .ok pr.1
  | .error e => .error e

/-- A Go slice expression `b[lo:hi]`: panics (`.oob`) unless
`0 ≤ lo ≤ hi ≤ len b`. -/
def sliceGo (b : List Nat) (lo hi : Int) : Except RErr (List Nat) :=
  if 0 ≤ lo ∧ lo ≤ hi ∧ hi ≤ (b.length : Int) then
    .ok ((b.drop lo.toNat).take (hi - lo).toNat)
  else .error .oob

/-- The buffer-resident read shared by `ReadIndex`/`Iter`/`IterReverse`:
`ReadEntry` over `buffer.Bytes()[p.offset-currSize : p.EndOffset()-currSize]`. -/
def readBuffered (bufBytes : List Nat) (s : Segment) (p : Pos) : Except RErr LogEntry :=
  match sliceGo bufBytes ((p.offset : Int) - (s.currSize : Int))
                 ((p.EndOffset : Int) - (s.currSize : Int)) with
  | .error e => .error e
  | .ok byt =>
    match readEntry byt with
    | .ok pr => .ok pr.1
    | .error e => .error e

/-- The recovery loop of `Segment.Read` from segment.go: decode records,
verify each CRC, accumulate positions and the advancing offset.  The loop
consumes at least 16 bytes per step, so `fuel = bs.length + 1` always
suffices; exhausted fuel is reported as `.oob` (never reached). -/
def segReadLoop (fuel : Nat) (bs : List Nat) (off : Nat) (acc : List Pos) :
    Except RErr (List Pos × Nat) :=
  match fuel with
  | 0 => .error .oob
  | fuel + 1 =>
    match readEntry bs with
    | .error .eof => .ok (acc, off)
    | .error e => .error e
    | .ok (e, rest) =>
      if ChecksumIEEE e.Data = e.Checksum then
        segReadLoop fuel rest (off + e.Offset) (acc ++ [{ offset := off, length := e.Length }])
      else .error .checksumMismatch

/-- `Segment.Read` from segment.go applied to the file's bytes: returns the
rebuilt positions and the segment's parsed logical size. -/
def segmentRead (bs : List Nat) : Except RErr (List Pos × Nat) :=
  segReadLoop (bs.length + 1) bs 0 []

/-- The subset of `WALOption` the modelled operations read.  The file-name
parts (directory and name stem) only shape paths, which are modelled by
segment indices, and the janitor/cache options are outside the claims. -/
structure WALOption where
  maxSegmentFile : Nat
  maxSegmentSize : Nat
  maxWriteBufferSize : Nat
  deriving Repr, DecidableEq

/-- `WAL` from wal.go.  `buffer` is the contents of the engine's `WALBuffer`,
`lru` the LRU cache (as an association list: capacity eviction and recency
do not affect the claims), `removedPaths` records the files unlinked by
`deleteSegments`/`Delete`, and `notified` whether a retirement notification
was sent on `segmentNotify`. -/
structure WAL where
  option : WALOption
  segmentIndex : Nat
  segmentFile : Nat
  segments : List Segment
  buffer : List Nat
  lru : List (Int × LogEntry)
  pos : Nat
  notified : Bool
  removedPaths : List Nat
  deriving Repr, DecidableEq

/-- Mutation of the last element of the segments list (the Go code mutates
the `*Segment` returned by `CurrentSegment()` in place). -/
def modifyLast (f : Segment → Segment) : List Segment → List Segment
  | [] => []
  | [s] => [f s]
  | s :: s2 :: rest => s :: modifyLast f (s2 :: rest)

/-- Mutation of the element at index `i` of the segments list. -/
def modifyAt (i : Nat) (f : Segment → Segment) : List Segment → List Segment
  | [] => []
  | s :: rest =>
    match i with
    | 0 => f s :: rest
    | i + 1 => s :: modifyAt i f rest

/-- The record bytes built by `WAL.Write`: 8 timestamp bytes, 4 length bytes,
4 CRC bytes, then the payload (`entry := make([]byte, blockSize+len(data))`
filled by the three `PutUint` calls and `copy(entry[16:], data)`). -/
def encodeEntry (timestamp : Nat) (data : List Nat) : List Nat :=
  be64 timestamp ++ be32 data.length ++ be32 (ChecksumIEEE data) ++ data

/-- The fresh segment appended by `WAL.createSegment` (a newly created file is
empty; `modTime: time.Now()` is the clock argument `t`). -/
def newSegment (idx t : Nat) : Segment :=
  { index := idx, path := idx, size := 0, fileBytes := [], writerPending := [],
    offset := [], currSize := 0, modTime := t, closed := false }

/-- `WAL.createSegment` from wal.go. -/
def WAL.createSegment (w : WAL) (t : Nat) : WAL :=
  { w with segments := w.segments ++ [newSegment w.segmentIndex t],
           segmentIndex := w.segmentIndex + 1,
           segmentFile := w.segmentFile + 1 }

/-- The engine state built at the top of `New` (before `LoadSegments` and
`createSegment`): empty buffer, empty cache, no segments. -/
def emptyWAL (opt : WALOption) : WAL :=
  { option := opt, segmentIndex := 0, segmentFile := 0, segments := [],
    buffer := [], lru := [], pos := 0, notified := false, removedPaths := [] }

/-- One step of `WAL.LoadSegments` from wal.go for a discovered `.log` file:
`nameIdx` is the numeric suffix parsed from the name, `fb` the file bytes,
`mt` the file's mod time.  `Segment.Read` rebuilds the positions and sets the
parsed logical size; `currSize` stays at the stat size and the segment is
left `closed`.  A parse error aborts the whole load (fail-stop). -/
def WAL.loadSegment (w : WAL) (nameIdx : Nat) (fb : List Nat) (mt : Nat) :
    Except RErr WAL :=
  match segmentRead fb with
  | .error e => .error e
  | .ok (positions, parsedSize) =>
    .ok { w with
          segments := w.segments ++
            [{ index := nameIdx, path := nameIdx, size := parsedSize,
               fileBytes := fb, writerPending := [], offset := positions,
               currSize := fb.length, modTime := mt, closed := true }],
          segmentIndex := nameIdx + 1,
          segmentFile := w.segmentFile + 1,
          pos := w.pos + positions.length }

/-- `WAL.LoadSegments` from wal.go: fold `loadSegment` over the directory
walk, file by file. -/
def WAL.LoadSegments (w : WAL) : List (Nat × List Nat × Nat) → Except RErr WAL
  | [] => .ok w
  | (n, fb, mt) :: rest =>
    match w.loadSegment n fb mt with
    | .error e => .error e
    | .ok w2 => w2.LoadSegments rest

/-- The per-segment effect of `Sync` on the current segment: the bufio
writer's pending bytes reach the file, `currSize` becomes the stat size and
`modTime` the stat mod time `t`. -/
def syncF (t : Nat) (s : Segment) : Segment :=
  { s with fileBytes := s.fileBytes ++ s.writerPending,
           writerPending := [],
           currSize := (s.fileBytes ++ s.writerPending).length,
           modTime := t }

/-- `WAL.Sync` from wal.go: flush the current segment's bufio writer into the
file, fsync, stat, and set `currSize`/`modTime` from the stat result (`t` is
the stat mod time).  Nothing else is touched; in particular the engine's
write buffer is not drained. -/
def WAL.Sync (w : WAL) (t : Nat) : WAL :=
  { w with segments := modifyLast (syncF t) w.segments }

/-- `WAL.deleteSegments` from wal.go: close every handle, unlink every file,
empty the segments list and reset `pos`. -/
def WAL.deleteSegments (w : WAL) : WAL :=
  { w with removedPaths := w.removedPaths ++ w.segments.map (fun s => s.path),
           segments := [], pos := 0 }

/-- `WAL.Delete` from wal.go (same state effect as `deleteSegments`; it only
differs in propagating `fd.Close` errors, which cannot fail in the model). -/
def WAL.Delete (w : WAL) : WAL :=
  { w with removedPaths := w.removedPaths ++ w.segments.map (fun s => s.path),
           segments := [], pos := 0 }

/-- The per-segment effect of `WALBuffer.Flush(curr.writer)` inside
`flushBuffer`: the engine buffer's bytes land in the writer. -/
def drainF (buf : List Nat) (s : Segment) : Segment :=
  { s with writerPending := s.writerPending ++ buf }

/-- `WAL.flushBuffer` from wal.go: drain the write buffer into the current
segment's writer, `Sync`, then rotate if the segment reached
`maxSegmentSize`, retiring all segments first when one more segment would
exceed `maxSegmentFile`.  The `curr.closed = true` write happens through the
pointer captured before rotation: after `deleteSegments` that segment is no
longer in the list, otherwise it is the one at the old last index. -/
def WAL.flushBuffer (w : WAL) (t : Nat) : WAL :=
  let w1 := { w with buffer := [],
                     segments := modifyLast (drainF w.buffer) w.segments }
  let w2 := w1.Sync t
  match w2.segments.getLast? with
  | none => w2
  | some curr =>
    if w.option.maxSegmentSize ≤ curr.size then
      if w.option.maxSegmentFile < w2.segments.length + 1 then
        let w3 := w2.deleteSegments
        let w4 := w3.createSegment t
        { w4 with notified := true }
      else
        let n := w2.segments.length
        let w4 := w2.createSegment t
        { w4 with segments := modifyAt (n - 1) (fun s => { s with closed := true }) w4.segments }
    else w2

/-- The per-segment effect of `Write` on the current segment: append the new
record's position (`length` is the Go `uint32` of the payload length) and
grow the logical size by the record's on-disk size. -/
def appendPosF (dataLen : Nat) (s : Segment) : Segment :=
  { s with offset := s.offset ++ [{ offset := s.size, length := dataLen % 2 ^ 32 }],
           size := s.size + (blockSize + dataLen % 2 ^ 32) % 2 ^ 32 }

/-- `WAL.Write` from wal.go: encode, bump `pos`, append the position to the
current segment and grow its logical size, append the bytes to the write
buffer, and flush when the buffer reaches `maxWriteBufferSize`.  The
`walBufferPool` Put/Get pair at the end returns the same buffer object and
is a no-op on the state.  `ts` is `time.Now().UnixNano()`. -/
def WAL.Write (w : WAL) (ts : Nat) (data : List Nat) : WAL :=
  let w1 := { w with
              pos := w.pos + 1,
              segments := modifyLast (appendPosF data.length) w.segments,
              buffer := w.buffer ++ encodeEntry ts data }
  if w.option.maxWriteBufferSize ≤ w1.buffer.length then w1.flushBuffer ts else w1

/-- `WAL.CurrentSegment` from wal.go: the last (active) segment.  The Go code
indexes `w.segments[len(w.segments)-1]` and panics on an empty list; the
model falls back to `dummySeg`, and theorems about it carry a nonemptiness
hypothesis. -/
def WAL.CurrentSegment (w : WAL) : Segment :=
  (w.segments.getLast?).getD dummySeg

/-- `lru.Get` modelled on the association list. -/
def lruGet (l : List (Int × LogEntry)) (i : Int) : Option LogEntry :=
  (l.find? (fun p => p.1 == i)).map (fun p => p.2)

/-- The segment scan of `WAL.ReadIndex` from wal.go.  On a failed
buffer-resident read the Go code falls through and continues the loop with a
stale `currOffset` (the `else` that advances it belongs to the range check);
`Segment.Open`/`Close` are absent from src/ and are modelled from the spec
as always-succeeding operations on the OS handle with no effect on the
embedded state. -/
def readIndexGo (w : WAL) (index : Int) :
    List Segment → Int → Int → Except RErr LogEntry
  | [], _, _ => .error .notFound
  | seg :: rest, currOffset, nextOffset0 =>
    let nextOffset := nextOffset0 + (seg.offset.length : Int)
    if currOffset ≤ index ∧ index < nextOffset then
      let currIndex := (index - currOffset).toNat
      match seg.offset.get? currIndex with
      | none => .error .oob
      | some p =>
        if !seg.closed && seg.OnActiveBuffer currIndex then
          match readBuffered w.buffer seg p with
          | .ok e => .ok e
          | .error _ => readIndexGo w index rest currOffset nextOffset
        else
          seg.SeekOffset p.offset
    else
      readIndexGo w index rest nextOffset nextOffset

/-- `WAL.ReadIndex` from wal.go: LRU probe, segment scan, and the deferred
`lru.Add` that fires exactly when a read was found.  Returns the result and
the cache after the call. -/
def WAL.ReadIndex (w : WAL) (index : Int) :
    Except RErr LogEntry × List (Int × LogEntry) :=
  match lruGet w.lru index with
  | some e => (.ok e, w.lru)
  | none =>
    match readIndexGo w index w.segments 0 0 with
    | .ok e => (.ok e, (index, e) :: w.lru)
    | .error er => (.error er, w.lru)

/-- The per-record read performed by `Iter`/`IterReverse`: from the buffer
slice when `OnActiveBuffer`, otherwise `SeekOffset` into the file. -/
def iterRead (bufBytes : List Nat) (seg : Segment) (idx : Nat) (p : Pos) :
    Except RErr LogEntry :=
  if seg.OnActiveBuffer idx then readBuffered bufBytes seg p
  else seg.SeekOffset p.offset

/-- The inner loop of `WAL.Iter` for one segment, starting at `idx`, with the
visited `(index, entry)` callback invocations as the trace.  The second
component is the `stop` flag, the third a fatal error (a buffer-read error,
or a non-EOF file error; a file-read `io.EOF` just breaks the loop).
`fuel` bounds the iterations; `seg.offset.length` always suffices. -/
def iterInner (bufBytes : List Nat) (seg : Segment) (cb : Nat → LogEntry → Bool) :
    Nat → Nat → List (Nat × LogEntry) × Bool × Option RErr
  | _, 0 => ([], false, none)
  | idx, fuel + 1 =>
    match seg.offset.get? idx with
    | none => ([], false, none)
    | some p =>
      if seg.OnActiveBuffer idx then
        match readBuffered bufBytes seg p with
        | .error e => ([], false, some e)
        | .ok entry =>
          if cb idx entry then
            let r := iterInner bufBytes seg cb (idx + 1) fuel
            ((idx, entry) :: r.1, r.2.1, r.2.2)
          else ([(idx, entry)], true, none)
      else
        match seg.SeekOffset p.offset with
        | .error .eof => ([], false, none)
        | .error e => ([], false, some e)
        | .ok entry =>
          if cb idx entry then
            let r := iterInner bufBytes seg cb (idx + 1) fuel
            ((idx, entry) :: r.1, r.2.1, r.2.2)
          else ([(idx, entry)], true, none)

/-- The outer loop of `WAL.Iter`: segments in order; a closed segment is
transiently opened and closed around its inner loop (`Segment.Open`/`Close`
are modelled from the spec as state-invisible); `stop` short-circuits. -/
def iterOuter (w : WAL) (cb : Nat → LogEntry → Bool) :
    List Segment → List (Nat × LogEntry) × Option RErr
  | [] => ([], none)
  | seg :: rest =>
    let r := iterInner w.buffer seg cb 0 seg.offset.length
    match r.2.2 with
    | some e => (r.1, some e)
    | none =>
      if r.2.1 then (r.1, none)
      else
        let r2 := iterOuter w cb rest
        (r.1 ++ r2.1, r2.2)

/-- `WAL.Iter` from wal.go, with the callback trace made explicit. -/
def WAL.Iter (w : WAL) (cb : Nat → LogEntry → Bool) :
    List (Nat × LogEntry) × Option RErr :=
  iterOuter w cb w.segments

/-- The inner loop of `WAL.IterReverse` for one segment, walking `idx` down
to 0 (`for index >= 0 { ...; index-- }`). -/
def iterInnerRev (bufBytes : List Nat) (seg : Segment) (cb : Nat → LogEntry → Bool) :
    Nat → Nat → List (Nat × LogEntry) × Bool × Option RErr
  | _, 0 => ([], false, none)
  | idx, fuel + 1 =>
    match seg.offset.get? idx with
    | none => ([], false, none)
    | some p =>
      if seg.OnActiveBuffer idx then
        match readBuffered bufBytes seg p with
        | .error e => ([], false, some e)
        | .ok entry =>
          if cb idx entry then
            match idx with
            | 0 => ([(0, entry)], false, none)
            | i + 1 =>
              let r := iterInnerRev bufBytes seg cb i fuel
              ((i + 1, entry) :: r.1, r.2.1, r.2.2)
          else ([(idx, entry)], true, none)
      else
        match seg.SeekOffset p.offset with
        | .error .eof => ([], false, none)
        | .error e => ([], false, some e)
        | .ok entry =>
          if cb idx entry then
            match idx with
            | 0 => ([(0, entry)], false, none)
            | i + 1 =>
              let r := iterInnerRev bufBytes seg cb i fuel
              ((i + 1, entry) :: r.1, r.2.1, r.2.2)
          else ([(idx, entry)], true, none)

/-- The outer loop of `WAL.IterReverse`, applied to the reversed segments
list (`for i := len(w.segments)-1; i >= 0; i--`).  An empty segment's inner
loop does not run (`index` starts at -1). -/
def iterOuterRev (w : WAL) (cb : Nat → LogEntry → Bool) :
    List Segment → List (Nat × LogEntry) × Option RErr
  | [] => ([], none)
  | seg :: rest =>
    let r := if seg.offset.length = 0 then ([], false, none)
             else iterInnerRev w.buffer seg cb (seg.offset.length - 1) seg.offset.length
    match r.2.2 with
    | some e => (r.1, some e)
    | none =>
      if r.2.1 then (r.1, none)
      else
        let r2 := iterOuterRev w cb rest
        (r.1 ++ r2.1, r2.2)

/-- `WAL.IterReverse` from wal.go, with the callback trace made explicit. -/
def WAL.IterReverse (w : WAL) (cb : Nat → LogEntry → Bool) :
    List (Nat × LogEntry) × Option RErr :=
  iterOuterRev w cb w.segments.reverse

/-- The callback trace the iteration claim predicts over a flat record list:
every element is visited in order until the callback returns false, and the
element that returned false is still visited.  The second component records
whether iteration stopped early. -/
def visitListS (cb : Nat → LogEntry → Bool) :
    List (Nat × LogEntry) → List (Nat × LogEntry) × Bool
  | [] => ([], false)
  | (i, e) :: rest =>
    if cb i e then
      let r := visitListS cb rest
      ((i, e) :: r.1, r.2)
    else ([(i, e)], true)

/-- All records of the engine in insertion order, as (in-segment index,
entry) pairs, given a table `ent` of the decoded entries. -/
def flatPairs (ent : Segment → Nat → LogEntry) (segs : List Segment) :
    List (Nat × LogEntry) :=
  segs.flatMap (fun s => (List.range s.offset.length).map (fun i => (i, ent s i)))

/-- The same records with each segment's positions listed in reverse. -/
def flatPairsRev (ent : Segment → Nat → LogEntry) (segs : List Segment) :
    List (Nat × LogEntry) :=
  segs.flatMap (fun s => ((List.range s.offset.length).reverse).map
    (fun i => (i, ent s i)))

/-- Every stored record of `w` decodes successfully, through the exact read
the iterators perform, to the entry given by the table `ent`. -/
def readsOk (w : WAL) (ent : Segment → Nat → LogEntry) : Prop :=
  ∀ seg ∈ w.segments, ∀ i, i < seg.offset.length →
    iterRead w.buffer seg i (seg.offset.getD i dummyPos) = .ok (ent seg i)

instance (w : WAL) (ent : Segment → Nat → LogEntry) : Decidable (readsOk w ent) := by
  unfold readsOk
  infer_instance

/-- The result of `WALBuffer.Flush`: the returned byte count and error, the
bytes actually delivered to (accepted by) the writer, and the buffer
contents after the call. -/
structure FlushResult where
  n : Nat
  err : Option RErr
  delivered : List Nat
  bufAfter : List Nat
  deriving Repr, DecidableEq

/-- `WALBuffer.Flush` from wal.go: `n, err := b.buf.WriteTo(w); b.buf.Reset()`.
The writer is modelled by how it responds to the single `Write` call
`bytes.Buffer.WriteTo` makes: it accepts `m` bytes and reports an error iff
`werr` (the `io.Writer` contract makes `werr` true whenever `m` is short,
and `WriteTo` itself turns a silent short write into `ErrShortWrite`,
modelled as `.unexpectedEOF` here).  `b.buf.Reset()` runs unconditionally,
so the buffer is empty afterwards in every case. -/
def WALBuffer.Flush (buf : List Nat) (m : Nat) (werr : Bool) : FlushResult :=
  if buf.length = 0 then
    { n := 0, err := none, delivered := [], bufAfter := [] }
  else
    let mA := min m buf.length
    { n := mA,
      err := if werr then some .ioErr
             else if mA < buf.length then some .unexpectedEOF
             else none,
      delivered := buf.take mA,
      bufAfter := [] }

/-- Total number of stored records: the sum of the segments' position counts. -/
def sumLens (segs : List Segment) : Nat :=
  (segs.map (fun s => s.offset.length)).sum

/-- The count invariant of claim C9. -/
def posInv (w : WAL) : Prop :=
  w.pos = sumLens w.segments

instance (w : WAL) : Decidable (posInv w) := by
  unfold posInv; infer_instance

/-! Concrete states used by counterexamples and witnesses. -/

/-- Options for the flush-boundary scenario: a write buffer threshold of 20
bytes, no rotation. -/
def cOpt : WALOption :=
  { maxSegmentFile := 10, maxSegmentSize := 1000, maxWriteBufferSize := 20 }

/-- The engine right after `New` on an empty directory with `cOpt`. -/
def cW0 : WAL := (emptyWAL cOpt).createSegment 0

/-- After one `Write` of a 5-byte payload: the 21-byte record crosses the
20-byte buffer threshold, so the write buffer is flushed and fsynced
(`currSize = 21`). -/
def cW1 : WAL := cW0.Write 0 [1, 2, 3, 4, 5]

/-- After a further `Write` of a 1-byte payload: a 17-byte record that stays
in the write buffer; its position offset (21) equals `currSize` (21). -/
def cW2 : WAL := cW1.Write 0 [9]

/-- Options for the well-classified iteration scenario: threshold far above
the bytes written, so everything stays in the buffer (`currSize = 0`). -/
def bOpt : WALOption :=
  { maxSegmentFile := 10, maxSegmentSize := 1000, maxWriteBufferSize := 100 }

/-- Two 17-byte records, both resident in the write buffer. -/
def bW : WAL := (((emptyWAL bOpt).createSegment 0).Write 0 [10]).Write 0 [20]

/-- The first record of `bW` as decoded by the model. -/
def bEntry0 : LogEntry :=
  { Offset := 17, Length := 1, Data := [10], Checksum := ChecksumIEEE [10],
    Timestamp := 0 }

/-- The second record of `bW` as decoded by the model. -/
def bEntry1 : LogEntry :=
  { Offset := 17, Length := 1, Data := [20], Checksum := ChecksumIEEE [20],
    Timestamp := 0 }

/-- The record table of `bW` used to instantiate the iteration theorem. -/
def bEnt : Segment → Nat → LogEntry :=
  fun _ i => if i = 0 then bEntry0 else bEntry1

/-- Options for the C5 retention scenario: `rW` below ends with one segment
of logical size 21 against `maxSegmentSize = 10` and `maxSegmentFile = 1`,
so its next flush retires everything. -/
def rOpt : WALOption :=
  { maxSegmentFile := 1, maxSegmentSize := 10, maxWriteBufferSize := 1000 }

/-- The concrete pre-retention engine used by the C5 witness. -/
def rW : WAL := ((emptyWAL rOpt).createSegment 0).Write 3 [1, 2, 3, 4, 5]

/-- A stale-cache state: the shape left by a bulk retention event
(`deleteSegments` resets `pos` and the segments but never clears the LRU),
rebuilt directly: one fresh empty segment, zero records, and a leftover
cache entry for index 0. -/
def staleW : WAL :=
  { option := cOpt, segmentIndex := 3, segmentFile := 3,
    segments := [newSegment 2 0], buffer := [], lru := [(0, bEntry0)],
    pos := 0, notified := true, removedPaths := [0, 1] }

/-! Helper lemmas about `modifyLast` and `sumLens`. -/

theorem length_modifyLast (f : Segment → Segment) (l : List Segment) :
    (modifyLast f l).length = l.length := by
  induction l with
  | nil => rfl
  | cons s rest ih =>
    cases rest with
    | nil => rfl
    | cons s2 r2 => simpa [modifyLast] using ih

theorem getLast?_modifyLast (f : Segment → Segment) (l : List Segment) :
    (modifyLast f l).getLast? = l.getLast?.map f := by
  induction l with
  | nil => rfl
  | cons s rest ih =>
    cases rest with
    | nil => rfl
    | cons s2 r2 =>
      have hlen : (modifyLast f (s2 :: r2)).length = (s2 :: r2).length :=
        length_modifyLast f (s2 :: r2)
      cases hm : modifyLast f (s2 :: r2) with
      | nil => simp [hm] at hlen
      | cons m mr =>
        rw [modifyLast, hm, List.getLast?_cons_cons, ← hm, ih, List.getLast?_cons_cons]

theorem dropLast_modifyLast (f : Segment → Segment) (l : List Segment) :
    (modifyLast f l).dropLast = l.dropLast := by
  induction l with
  | nil => rfl
  | cons s rest ih =>
    cases rest with
    | nil => rfl
    | cons s2 r2 =>
      have hlen : (modifyLast f (s2 :: r2)).length = (s2 :: r2).length :=
        length_modifyLast f (s2 :: r2)

      cases hm : modifyLast f (s2 :: r2) with
      | nil => simp [hm] at hlen
      | cons m mr =>
        rw [modifyLast, hm, List.dropLast_cons₂, ← hm, ih, List.dropLast_cons₂]

theorem modifyLast_modifyLast (f g : Segment → Segment) (l : List Segment) :
    modifyLast g (modifyLast f l) = modifyLast (fun s => g (f s)) l := by
  induction l with
  | nil => rfl
  | cons s rest ih =>
    cases rest with
    | nil => rfl
    | cons s2 r2 =>
      have hlen : (modifyLast f (s2 :: r2)).length = (s2 :: r2).length :=
        length_modifyLast f (s2 :: r2)
      cases hm : modifyLast f (s2 :: r2) with
      | nil => simp [hm] at hlen
      | cons m mr =>
        rw [modifyLast, hm, modifyLast, ← hm, ih, modifyLast]

theorem map_modifyLast {α : Type} (g : Segment → α) (f : Segment → Segment)
    (hf : ∀ s, g (f s) = g s) (l : List Segment) :
    (modifyLast f l).map g = l.map g := by
  induction l with
  | nil => rfl
  | cons s rest ih =>
    cases rest with
    | nil => simp [modifyLast, hf]
    | cons s2 r2 => simpa [modifyLast] using ih

theorem sumLens_nil : sumLens [] = 0 := rfl

theorem sumLens_cons (s : Segment) (l : List Segment) :
    sumLens (s :: l) = s.offset.length + sumLens l := by
  simp [sumLens]

theorem sumLens_append (a b : List Segment) :
    sumLens (a ++ b) = sumLens a + sumLens b := by
  simp [sumLens]

theorem sumLens_modifyLast (f : Segment → Segment)
    (hf : ∀ s, (f s).offset.length = s.offset.length) (l : List Segment) :
    sumLens (modifyLast f l) = sumLens l := by
  unfold sumLens
  rw [show (fun s : Segment => s.offset.length) = (fun s => s.offset.length) from rfl]
  rw [map_modifyLast (fun s => s.offset.length) f hf]

theorem sumLens_modifyLast_push (f : Segment → Segment)
    (hf : ∀ s, (f s).offset.length = s.offset.length + 1) (l : List Segment)
    (hl : l ≠ []) :
    sumLens (modifyLast f l) = sumLens l + 1 := by
  induction l with
  | nil => exact absurd rfl hl
  | cons s rest ih =>
    cases rest with
    | nil =>
      rw [show modifyLast f [s] = [f s] from rfl, sumLens_cons, sumLens_cons, hf]
      omega
    | cons s2 r2 =>
      rw [modifyLast, sumLens_cons, sumLens_cons, ih (by simp)]
      omega

theorem sumLens_modifyAt_closed (i : Nat) (l : List Segment) :
    sumLens (modifyAt i (fun s => { s with closed := true }) l) = sumLens l := by
  induction l generalizing i with
  | nil => cases i <;> rfl
  | cons s rest ih =>
    cases i with
    | zero => simp [modifyAt, sumLens_cons]
    | succ j => rw [modifyAt, sumLens_cons, sumLens_cons, ih j]

/-! Claim C4: record encoding. -/

/-- C4: for every payload of length L, `Write` produces exactly 16+L encoded
bytes: bytes 0..7 the timestamp as big-endian unsigned 64-bit, bytes 8..11
L as big-endian unsigned 32-bit, bytes 12..15 the CRC-32/IEEE of the
payload alone in big-endian, bytes 16.. the payload verbatim; and the
record is appended to the write buffer with no padding or framing (shown
for a write that stays below the flush threshold, so that the buffer
contents remain observable). -/
theorem c4_record_encoding (ts : Nat) (data : List Nat) (w : WAL)
    (hbuf : w.buffer.length + (blockSize + data.length) < w.option.maxWriteBufferSize) :
    (encodeEntry ts data).length = blockSize + data.length ∧
    (encodeEntry ts data).take 8 = be64 ts ∧
    ((encodeEntry ts data).drop 8).take 4 = be32 data.length ∧
    ((encodeEntry ts data).drop 12).take 4 = be32 (ChecksumIEEE data) ∧
    (encodeEntry ts data).drop 16 = data ∧
    (w.Write ts data).buffer = w.buffer ++ encodeEntry ts data := by
  have hlen : (encodeEntry ts data).length = blockSize + data.length := by
    simp [encodeEntry, be64, be32, blockSize]
    omega
  refine ⟨hlen, rfl, rfl, rfl, rfl, ?_⟩
  have hcond : ¬ w.option.maxWriteBufferSize ≤ (w.buffer ++ encodeEntry ts data).length := by
    rw [List.length_append, hlen]
    omega
  simp only [WAL.Write, hcond, if_false, if_neg hcond]

/-- C4 witness: the encoding facts at a concrete payload and state. -/
theorem c4_record_encoding_witness :
    (encodeEntry 7 [1, 2]).length = blockSize + 2 ∧
    (encodeEntry 7 [1, 2]).take 8 = be64 7 ∧
    ((encodeEntry 7 [1, 2]).drop 8).take 4 = be32 2 ∧
    ((encodeEntry 7 [1, 2]).drop 12).take 4 = be32 (ChecksumIEEE [1, 2]) ∧
    (encodeEntry 7 [1, 2]).drop 16 = [1, 2] ∧
    (((emptyWAL bOpt).createSegment 0).Write 7 [1, 2]).buffer =
      ((emptyWAL bOpt).createSegment 0).buffer ++ encodeEntry 7 [1, 2] :=
  c4_record_encoding 7 [1, 2] ((emptyWAL bOpt).createSegment 0) (by decide)

/-! Claim C7: write-buffer flush. -/

/-- C7 counterexample: the claim as stated says `Flush` "does not clear bytes
that were not delivered to the writer"; when the writer accepts only the
first of two bytes and errors, the undelivered byte is nevertheless cleared
(`b.buf.Reset()` runs unconditionally after `WriteTo`). -/
theorem c7_flush_counterexample :
    (WALBuffer.Flush [1, 2] 1 true).delivered = [1] ∧
    (WALBuffer.Flush [1, 2] 1 true).err = some .ioErr ∧
    (WALBuffer.Flush [1, 2] 1 true).bufAfter = [] := by decide

/-- C7 (amended): on a successful flush (the writer accepts everything and
reports no error) the buffer is left empty and the writer received exactly
the prior contents; however the buffer is cleared in every case, so bytes
the writer did not accept are dropped rather than retained. -/
theorem c7_flush_amended (buf : List Nat) (m : Nat) (werr : Bool) :
    ((werr = false ∧ m = buf.length) →
      (WALBuffer.Flush buf m werr).err = none ∧
      (WALBuffer.Flush buf m werr).delivered = buf ∧
      (WALBuffer.Flush buf m werr).n = buf.length) ∧
    (WALBuffer.Flush buf m werr).bufAfter = [] := by
  by_cases h0 : buf.length = 0
  · have hb : buf = [] := List.length_eq_zero.mp h0
    subst hb
    simp [WALBuffer.Flush]
  · constructor
    · rintro ⟨hw, hm⟩
      subst hw hm
      simp [WALBuffer.Flush, h0]
    · simp only [WALBuffer.Flush]
      rw [if_neg h0]

/-- C7 witness: the amended flush contract at a concrete successful flush. -/
theorem c7_flush_amended_witness :
    (WALBuffer.Flush [1, 2, 3] 3 false).err = none ∧
    (WALBuffer.Flush [1, 2, 3] 3 false).delivered = [1, 2, 3] ∧
    (WALBuffer.Flush [1, 2, 3] 3 false).n = 3 :=
  (c7_flush_amended [1, 2, 3] 3 false).1 (by decide)

/-! Claim C6: the frame of the public Sync. -/

/-- C6: `Sync` flushes the active segment's file writer, fsyncs, and updates
only that segment's `currSize` (to the stat size) and `modTime`; the
engine's write buffer, every segment's positions and logical size, the
other segments, and `pos` are all unchanged — in particular `Sync` never
drains the write buffer. -/
theorem c6_sync_frame (w : WAL) (t : Nat) (h : w.segments ≠ []) :
    (w.Sync t).buffer = w.buffer ∧
    (w.Sync t).pos = w.pos ∧
    (w.Sync t).lru = w.lru ∧
    (w.Sync t).segmentIndex = w.segmentIndex ∧
    (w.Sync t).segments.map (fun s => s.offset) = w.segments.map (fun s => s.offset) ∧
    (w.Sync t).segments.map (fun s => s.size) = w.segments.map (fun s => s.size) ∧
    (w.Sync t).segments.dropLast = w.segments.dropLast ∧
    (w.Sync t).CurrentSegment.currSize =
      (w.CurrentSegment.fileBytes ++ w.CurrentSegment.writerPending).length ∧
    (w.Sync t).CurrentSegment.modTime = t ∧
    (w.Sync t).CurrentSegment.closed = w.CurrentSegment.closed ∧
    (w.Sync t).CurrentSegment.offset = w.CurrentSegment.offset ∧
    (w.Sync t).CurrentSegment.size = w.CurrentSegment.size := by
  cases hx : w.segments.getLast? with
  | none =>
    exact absurd (List.getLast?_eq_none_iff.mp hx) h
  | some x =>
    have hcur : w.CurrentSegment = x := by
      simp [WAL.CurrentSegment, hx]
    have hcur2 : (w.Sync t).CurrentSegment = syncF t x := by
      simp [WAL.CurrentSegment, WAL.Sync, getLast?_modifyLast, hx]
    refine ⟨rfl, rfl, rfl, rfl, ?_, ?_, ?_, ?_, ?_, ?_, ?_, ?_⟩
    · exact map_modifyLast (fun s => s.offset) (syncF t) (fun s => rfl) w.segments
    · exact map_modifyLast (fun s => s.size) (syncF t) (fun s => rfl) w.segments
    · exact dropLast_modifyLast (syncF t) w.segments
    · simp [hcur2, hcur, syncF]
    · simp [hcur2, syncF]
    · simp [hcur2, hcur, syncF]
    · simp [hcur2, hcur, syncF]
    · simp [hcur2, hcur, syncF]

/-- C6 witness: the Sync frame at a concrete state with buffered bytes. -/
theorem c6_sync_frame_witness :
    (cW2.Sync 9).buffer = cW2.buffer ∧
    (cW2.Sync 9).pos = cW2.pos ∧
    (cW2.Sync 9).lru = cW2.lru ∧
    (cW2.Sync 9).segmentIndex = cW2.segmentIndex ∧
    (cW2.Sync 9).segments.map (fun s => s.offset) = cW2.segments.map (fun s => s.offset) ∧
    (cW2.Sync 9).segments.map (fun s => s.size) = cW2.segments.map (fun s => s.size) ∧
    (cW2.Sync 9).segments.dropLast = cW2.segments.dropLast ∧
    (cW2.Sync 9).CurrentSegment.currSize =
      (cW2.CurrentSegment.fileBytes ++ cW2.CurrentSegment.writerPending).length ∧
    (cW2.Sync 9).CurrentSegment.modTime = 9 ∧
    (cW2.Sync 9).CurrentSegment.closed = cW2.CurrentSegment.closed ∧
    (cW2.Sync 9).CurrentSegment.offset = cW2.CurrentSegment.offset ∧
    (cW2.Sync 9).CurrentSegment.size = cW2.CurrentSegment.size :=
  c6_sync_frame cW2 9 (by decide)

/-! Claims C1 and C3: the flush-boundary record. -/

set_option maxRecDepth 40000 in
/-- C1: round-trip fails on the code.  In `cW2` two payloads were written
with no retention and no rotation; index 0 reads back verbatim, but index 1
— the record sitting in the write buffer at offset 21 = `currSize` — is
misclassified by `OnActiveBuffer` as flushed, so `ReadIndex 1` seeks the
21-byte file to its end and returns `io.EOF` instead of the payload. -/
theorem c1_boundary_record_unreadable :
    cW2.pos = 2 ∧
    (cW2.ReadIndex 0).1 =
      .ok { Offset := 21, Length := 5, Data := [1, 2, 3, 4, 5],
            Checksum := ChecksumIEEE [1, 2, 3, 4, 5], Timestamp := 0 } ∧
    (cW2.ReadIndex 1).1 = .error .eof := by decide

/-- C3: the classifier disagrees with "in the buffer iff
`offset ≥ currSize`" exactly at the boundary: in `cW2` the record at
position 1 has `offset = currSize = 21` and has not been fsynced, yet
`OnActiveBuffer` (which tests `offset > currSize || currSize == 0`)
classifies it as flushed, while the spec-modelled test classifies it as
buffer-resident. -/
theorem c3_on_active_buffer_boundary :
    (cW2.CurrentSegment.offset.getD 1 dummyPos).offset = cW2.CurrentSegment.currSize ∧
    cW2.CurrentSegment.OnActiveBuffer 1 = false ∧
    OnActiveBufferSpec cW2.CurrentSegment 1 = true := by decide

/-! Claim C5: bulk retention on rotation. -/

/-- C5: when a flush finds the active segment at or above `maxSegmentSize`
and one more segment would exceed `maxSegmentFile`, every existing segment
is retired (its file unlinked), `pos` resets to 0 and the segments list is
emptied before the single new active segment is created; `segmentIndex`
itself keeps climbing (old index + 1), so file names stay monotonic. -/
theorem c5_bulk_retention (w : WAL) (t : Nat)
    (h1 : w.segments ≠ [])
    (h2 : w.option.maxSegmentSize ≤ w.CurrentSegment.size)
    (h3 : w.option.maxSegmentFile < w.segments.length + 1) :
    (w.flushBuffer t).segments = [newSegment w.segmentIndex t] ∧
    (w.flushBuffer t).pos = 0 ∧
    (w.flushBuffer t).segmentIndex = w.segmentIndex + 1 ∧
    (w.flushBuffer t).removedPaths = w.removedPaths ++ w.segments.map (fun s => s.path) ∧
    (w.flushBuffer t).notified = true := by
  cases hx : w.segments.getLast? with
  | none => exact absurd (List.getLast?_eq_none_iff.mp hx) h1
  | some x =>
    have hcur : w.CurrentSegment = x := by simp [WAL.CurrentSegment, hx]
    simp only [WAL.flushBuffer, WAL.Sync, modifyLast_modifyLast]
    rw [getLast?_modifyLast, hx]
    simp only [Option.map_some']
    rw [if_pos (by rw [hcur] at h2; exact h2),
        if_pos (by rw [length_modifyLast]; exact h3)]
    have hpath : (modifyLast (fun s => syncF t (drainF w.buffer s)) w.segments).map
        (fun s => s.path) = w.segments.map (fun s => s.path) :=
      map_modifyLast (fun s => s.path) (fun s => syncF t (drainF w.buffer s))
        (fun s => rfl) w.segments
    simp [WAL.deleteSegments, WAL.createSegment, hpath]

/-- C5 witness: the retention conclusions at the concrete engine `rW`. -/
theorem c5_bulk_retention_witness :
    (rW.flushBuffer 4).segments = [newSegment rW.segmentIndex 4] ∧
    (rW.flushBuffer 4).pos = 0 ∧
    (rW.flushBuffer 4).segmentIndex = rW.segmentIndex + 1 ∧
    (rW.flushBuffer 4).removedPaths = rW.removedPaths ++ rW.segments.map (fun s => s.path) ∧
    (rW.flushBuffer 4).notified = true :=
  c5_bulk_retention rW 4 (by decide) (by decide) (by decide)

/-! Claim C9: the count invariant. -/

theorem posInv_emptyWAL (opt : WALOption) : posInv (emptyWAL opt) := by
  simp [posInv, emptyWAL, sumLens]

theorem posInv_createSegment (w : WAL) (t : Nat) (h : posInv w) :
    posInv (w.createSegment t) := by
  unfold posInv at *
  simp only [WAL.createSegment, sumLens_append]
  rw [show sumLens [newSegment w.segmentIndex t] = 0 from rfl]
  omega

theorem posInv_loadSegment (w wL : WAL) (nameIdx mt : Nat) (fb : List Nat)
    (hld : w.loadSegment nameIdx fb mt = .ok wL) (h : posInv w) : posInv wL := by
  unfold WAL.loadSegment at hld
  cases hsr : segmentRead fb with
  | error e => rw [hsr] at hld; exact Except.noConfusion hld
  | ok pr =>
    rw [hsr] at hld
    cases hld
    unfold posInv at *
    simp only [sumLens_append, sumLens_cons, sumLens_nil]
    omega

theorem sumLens_syncF_drainF (buf : List Nat) (t : Nat) (l : List Segment) :
    sumLens (modifyLast (fun s => syncF t (drainF buf s)) l) = sumLens l :=
  sumLens_modifyLast (fun s => syncF t (drainF buf s)) (fun _ => rfl) l

theorem posInv_flushBuffer (w : WAL) (t : Nat) (h : posInv w) :
    posInv (w.flushBuffer t) := by
  unfold posInv at h ⊢
  simp only [WAL.flushBuffer, WAL.Sync, modifyLast_modifyLast]
  split
  · simpa [sumLens_syncF_drainF] using h
  · split
    · split
      · simp [WAL.deleteSegments, WAL.createSegment, sumLens_append,
              sumLens_cons, sumLens_nil, newSegment]
      · simp only [WAL.createSegment, sumLens_modifyAt_closed, sumLens_append,
                   sumLens_syncF_drainF, sumLens_cons, sumLens_nil]
        simpa [newSegment] using h
    · simpa [sumLens_syncF_drainF] using h

theorem posInv_Write (w : WAL) (ts : Nat) (data : List Nat)
    (hne : w.segments ≠ []) (h : posInv w) : posInv (w.Write ts data) := by
  have h1 : posInv { w with
      pos := w.pos + 1,
      segments := modifyLast (appendPosF data.length) w.segments,
      buffer := w.buffer ++ encodeEntry ts data } := by
    unfold posInv at h ⊢
    have hpush : sumLens (modifyLast (appendPosF data.length) w.segments) =
        sumLens w.segments + 1 :=
      sumLens_modifyLast_push (appendPosF data.length)
        (fun s => by simp [appendPosF]) w.segments hne
    simpa [hpush] using h
  show posInv (WAL.Write w ts data)
  simp only [WAL.Write]
  split
  · exact posInv_flushBuffer _ ts h1
  · exact h1

theorem posInv_deleteSegments (w : WAL) : posInv w.deleteSegments := by
  simp [posInv, WAL.deleteSegments, sumLens]

theorem posInv_Delete (w : WAL) : posInv w.Delete := by
  simp [posInv, WAL.Delete, sumLens]

/-- C9: in every reachable state `pos` equals the total number of stored
positions: it holds in the initial state, is preserved by `createSegment`,
`loadSegment` (hence `LoadSegments`), `flushBuffer` (rotation and
retention included), and `Write` (both sides grow by one), and is
re-established from scratch by `deleteSegments` and `Delete`. -/
theorem c9_pos_invariant (opt : WALOption) (w wL : WAL) (t ts nameIdx mt : Nat)
    (data fb : List Nat) :
    posInv (emptyWAL opt) ∧
    (posInv w → posInv (w.createSegment t)) ∧
    (w.loadSegment nameIdx fb mt = .ok wL → posInv w → posInv wL) ∧
    (posInv w → posInv (w.flushBuffer t)) ∧
    (w.segments ≠ [] → posInv w → posInv (w.Write ts data)) ∧
    posInv w.deleteSegments ∧
    posInv w.Delete :=
  ⟨posInv_emptyWAL opt,
   posInv_createSegment w t,
   fun hld h => posInv_loadSegment w wL nameIdx mt fb hld h,
   posInv_flushBuffer w t,
   fun hne h => posInv_Write w ts data hne h,
   posInv_deleteSegments w,
   posInv_Delete w⟩

/-- C9 witness: the invariant transported through a concrete `Write`. -/
theorem c9_pos_invariant_witness :
    posInv (((emptyWAL bOpt).createSegment 0).Write 5 [1, 2]) :=
  (c9_pos_invariant bOpt ((emptyWAL bOpt).createSegment 0)
    ((emptyWAL bOpt).createSegment 0) 0 5 0 0 [1, 2] []).2.2.2.2.1
    (by decide) (by decide)

/-! Claim C10: out-of-range reads. -/

theorem readIndexGo_notFound (w : WAL) (index : Int) (segs : List Segment)
    (co no : Int) (hco : 0 ≤ co) (hno : 0 ≤ no)
    (hout : index < 0 ∨ no + (sumLens segs : Int) ≤ index) :
    readIndexGo w index segs co no = .error .notFound := by
  induction segs generalizing co no with
  | nil => rfl
  | cons seg rest ih =>
    have hlen : (sumLens (seg :: rest) : Int) =
        (seg.offset.length : Int) + (sumLens rest : Int) := by
      rw [sumLens_cons]; push_cast; ring
    have hrest : (0 : Int) ≤ (sumLens rest : Int) := Int.ofNat_nonneg _
    have hcond : ¬ (co ≤ index ∧ index < no + (seg.offset.length : Int)) := by
      rcases hout with hvn | hge
      · intro hc; omega
      · intro hc; omega
    simp only [readIndexGo]
    rw [if_neg hcond]
    refine ih (no + (seg.offset.length : Int)) (no + (seg.offset.length : Int))
      (by positivity) (by positivity) ?_
    rcases hout with hvn | hge
    · exact Or.inl hvn
    · right; omega

/-- C10 counterexample: the claim as stated fails when the LRU holds a stale
entry.  `staleW` is the state shape a bulk retention event leaves behind
(zero stored records, the cache uncleared); `ReadIndex 0` — with 0 at least
the total record count — serves the stale cached entry instead of the
NotFound error. -/
theorem c10_stale_lru_hit :
    sumLens staleW.segments = 0 ∧
    (staleW.ReadIndex 0).1 = .ok bEntry0 := by decide

/-- C10 (amended): for every index that is negative or at least the total
number of stored records and is not present in the LRU cache, `ReadIndex`
returns the NotFound error, performs no out-of-bounds positions access (the
scan never takes the in-range branch, whose misses are the `.oob` outcome),
and leaves the cache unchanged. -/
theorem c10_out_of_range_amended (w : WAL) (index : Int)
    (hmiss : lruGet w.lru index = none)
    (hout : index < 0 ∨ (sumLens w.segments : Int) ≤ index) :
    w.ReadIndex index = (.error .notFound, w.lru) := by
  unfold WAL.ReadIndex
  rw [hmiss, readIndexGo_notFound w index w.segments 0 0 le_rfl le_rfl
    (by simpa using hout)]

/-- C10 witness: the amended statement at a concrete state and index. -/
theorem c10_out_of_range_witness :
    staleW.ReadIndex 5 = (.error .notFound, staleW.lru) :=
  c10_out_of_range_amended staleW 5 (by decide) (by decide)

/-! Claim C2: recovery on corrupt or truncated segments. -/

theorem readEntry_nil_eof (bs : List Nat) (h : bs.length = 0) :
    readEntry bs = .error .eof := by
  unfold readEntry
  rw [if_pos h]

theorem readEntry_short_header (bs : List Nat) (h1 : 0 < bs.length)
    (h2 : bs.length < 16) : readEntry bs = .error .unexpectedEOF := by
  unfold readEntry
  rw [if_neg (by omega), if_pos h2]

theorem readEntry_missing_payload (bs : List Nat) (h1 : bs.length = 16)
    (h2 : 0 < lengthField bs) : readEntry bs = .error .eof := by
  unfold readEntry
  rw [if_neg (by omega), if_neg (by omega),
      if_pos ⟨by simp [List.length_drop, h1], h2⟩]

theorem readEntry_short_payload (bs : List Nat) (h1 : 16 ≤ bs.length)
    (h2 : 0 < bs.length - 16) (h3 : bs.length - 16 < lengthField bs) :
    readEntry bs = .error .unexpectedEOF := by
  unfold readEntry
  rw [if_neg (by omega), if_neg (by omega),
      if_neg (by rw [List.length_drop]; rintro ⟨ha, _⟩; omega),
      if_pos (by rw [List.length_drop]; exact h3)]

/-- C2 counterexample: a file ending exactly after a complete 16-byte header
whose length field is nonzero — a truncated payload mid-record, with 16
bytes already consumed — is accepted by recovery as a clean EOF
(`io.ReadFull` reading the absent payload gets 0 bytes, hence plain
`io.EOF`, which `Segment.Read` treats as end of log), not reported as a
Corruption error as the claim states. -/
theorem c2_truncated_payload_accepted :
    segmentRead [0, 0, 0, 0, 0, 0, 0, 0, 0, 0, 0, 1, 0, 0, 0, 0] = .ok ([], 0) := by
  decide

/-- C2 (amended): recovery is fail-stop except at one boundary.  A record
whose stored CRC differs from the CRC-32/IEEE of its payload is a fatal
error; a truncated header (1..15 trailing bytes) and a truncated payload of
which at least one byte is present are fatal `ErrUnexpectedEOF`s; a good
record lets the loop continue (so these errors abort recovery mid-file
too); but a file ending exactly after a complete header whose length field
is nonzero is accepted as a clean EOF, and so is an exact record boundary. -/
theorem c2_recovery_amended (fuel off : Nat) (acc : List Pos) (bs : List Nat) :
    (∀ e rest, readEntry bs = .ok (e, rest) → ChecksumIEEE e.Data ≠ e.Checksum →
      segReadLoop (fuel + 1) bs off acc = .error .checksumMismatch) ∧
    (0 < bs.length → bs.length < 16 →
      segReadLoop (fuel + 1) bs off acc = .error .unexpectedEOF) ∧
    (16 ≤ bs.length → 0 < bs.length - 16 → bs.length - 16 < lengthField bs →
      segReadLoop (fuel + 1) bs off acc = .error .unexpectedEOF) ∧
    (∀ e rest, readEntry bs = .ok (e, rest) → ChecksumIEEE e.Data = e.Checksum →
      segReadLoop (fuel + 1) bs off acc =
        segReadLoop fuel rest (off + e.Offset)
          (acc ++ [{ offset := off, length := e.Length }])) ∧
    (bs.length = 16 → 0 < lengthField bs →
      segReadLoop (fuel + 1) bs off acc = .ok (acc, off)) ∧
    (bs.length = 0 → segReadLoop (fuel + 1) bs off acc = .ok (acc, off)) := by
  refine ⟨?_, ?_, ?_, ?_, ?_, ?_⟩
  · intro e rest hre hcrc
    simp only [segReadLoop, hre]
    rw [if_neg hcrc]
  · intro h1 h2
    simp only [segReadLoop, readEntry_short_header bs h1 h2]
  · intro h1 h2 h3
    simp only [segReadLoop, readEntry_short_payload bs h1 h2 h3]
  · intro e rest hre hcrc
    simp only [segReadLoop, hre]
    rw [if_pos hcrc]
  · intro h1 h2
    simp only [segReadLoop, readEntry_missing_payload bs h1 h2]
  · intro h0
    simp only [segReadLoop, readEntry_nil_eof bs h0]

/-- C2 witness: the amended recovery behavior at concrete inputs — a single
record with a wrong stored CRC is rejected, a 1-byte file (truncated
header) is rejected, and the empty remainder is a clean end of log. -/
theorem c2_recovery_amended_witness :
    segReadLoop 1 ([0, 0, 0, 0, 0, 0, 0, 0, 0, 0, 0, 1, 0, 0, 0, 0] ++ [7]) 0 [] =
      .error .checksumMismatch ∧
    segReadLoop 1 [5] 0 [] = .error .unexpectedEOF ∧
    segReadLoop 1 [] 3 [] = .ok ([], 3) := by
  refine ⟨?_, ?_, ?_⟩
  · exact (c2_recovery_amended 0 0 [] _).1
      { Offset := 17, Length := 1, Data := [7], Checksum := 0, Timestamp := 0 } []
      (by decide) (by decide)
  · exact (c2_recovery_amended 0 0 [] [5]).2.1 (by decide) (by decide)
  · exact (c2_recovery_amended 0 3 [] []).2.2.2.2.2 (by decide)

/-! Claim C8: iteration order and early stop. -/

theorem iterInner_step (bufBytes : List Nat) (seg : Segment) (cb : Nat → LogEntry → Bool)
    (idx fuel : Nat) (p : Pos) (e : LogEntry)
    (hget : seg.offset.get? idx = some p)
    (hread : iterRead bufBytes seg idx p = .ok e) :
    iterInner bufBytes seg cb idx (fuel + 1) =
      if cb idx e then
        ((idx, e) :: (iterInner bufBytes seg cb (idx + 1) fuel).1,
         (iterInner bufBytes seg cb (idx + 1) fuel).2.1,
         (iterInner bufBytes seg cb (idx + 1) fuel).2.2)
      else ([(idx, e)], true, none) := by
  unfold iterRead at hread
  rw [List.get?_eq_getElem?] at hget
  by_cases hb : seg.OnActiveBuffer idx
  · rw [if_pos hb] at hread
    simp [iterInner, hget, hb, hread]
  · rw [if_neg hb] at hread
    rw [Bool.not_eq_true] at hb
    simp [iterInner, hget, hb, hread]

theorem iterInner_visits (bufBytes : List Nat) (seg : Segment) (cb : Nat → LogEntry → Bool)
    (ent : Nat → LogEntry)
    (h : ∀ i, i < seg.offset.length →
      iterRead bufBytes seg i (seg.offset.getD i dummyPos) = .ok (ent i)) :
    ∀ fuel idx, seg.offset.length ≤ idx + fuel →
      iterInner bufBytes seg cb idx fuel =
        ((visitListS cb ((List.range' idx (seg.offset.length - idx)).map
            (fun i => (i, ent i)))).1,
         (visitListS cb ((List.range' idx (seg.offset.length - idx)).map
            (fun i => (i, ent i)))).2,
         none) := by
  intro fuel
  induction fuel with
  | zero =>
    intro idx hle
    have h0 : seg.offset.length - idx = 0 := by omega
    simp [iterInner, h0, visitListS]
  | succ fuel ih =>
    intro idx hle
    by_cases hidx : idx < seg.offset.length
    · have hget : seg.offset.get? idx = some (seg.offset.get ⟨idx, hidx⟩) :=
        List.get?_eq_get hidx
      have hpd : seg.offset.getD idx dummyPos = seg.offset.get ⟨idx, hidx⟩ := by
        rw [List.getD_eq_getElem?_getD, ← List.get?_eq_getElem?, hget]
        rfl
      have hread := h idx hidx
      rw [hpd] at hread
      rw [iterInner_step bufBytes seg cb idx fuel _ (ent idx) hget hread]
      have hrange : seg.offset.length - idx = (seg.offset.length - (idx + 1)) + 1 := by
        omega
      rw [hrange, List.range'_succ]
      simp only [List.map_cons]
      rw [ih (idx + 1) (by omega)]
      by_cases hcb : cb idx (ent idx)
      · simp [visitListS, hcb]
      · simp [visitListS, hcb]
    · have hget : seg.offset.get? idx = none := List.get?_eq_none.mpr (by omega)
      have h0 : seg.offset.length - idx = 0 := by omega
      rw [List.get?_eq_getElem?] at hget
      simp [iterInner, hget, h0, visitListS]

theorem visitListS_append (cb : Nat → LogEntry → Bool) (xs ys : List (Nat × LogEntry)) :
    visitListS cb (xs ++ ys) =
      if (visitListS cb xs).2 then visitListS cb xs
      else ((visitListS cb xs).1 ++ (visitListS cb ys).1, (visitListS cb ys).2) := by
  induction xs with
  | nil => simp [visitListS]
  | cons x rest ih =>
    obtain ⟨i, e⟩ := x
    by_cases hcb : cb i e
    · by_cases hstop : (visitListS cb rest).2
      · simp [visitListS, hcb, ih, hstop]
      · simp [visitListS, hcb, ih, hstop]
    · simp [visitListS, hcb]

theorem iterOuter_visits (w : WAL) (cb : Nat → LogEntry → Bool)
    (ent : Segment → Nat → LogEntry) (segs : List Segment)
    (h : ∀ seg ∈ segs, ∀ i, i < seg.offset.length →
      iterRead w.buffer seg i (seg.offset.getD i dummyPos) = .ok (ent seg i)) :
    iterOuter w cb segs = ((visitListS cb (flatPairs ent segs)).1, none) := by
  induction segs with
  | nil => simp [iterOuter, flatPairs, visitListS]
  | cons seg rest ih =>
    have hseg : ∀ i, i < seg.offset.length →
        iterRead w.buffer seg i (seg.offset.getD i dummyPos) = .ok (ent seg i) :=
      fun i hi => h seg (by simp) i hi
    have hinner := iterInner_visits w.buffer seg cb (ent seg) hseg
      seg.offset.length 0 (by omega)
    have hrest : ∀ s ∈ rest, ∀ i, i < s.offset.length →
        iterRead w.buffer s i (s.offset.getD i dummyPos) = .ok (ent s i) :=
      fun s hs i hi => h s (by simp [hs]) i hi
    have hpairs : (List.range' 0 (seg.offset.length - 0)).map
        (fun i => (i, ent seg i)) =
        (List.range seg.offset.length).map (fun i => (i, ent seg i)) := by
      rw [Nat.sub_zero, ← List.range_eq_range']
    rw [hpairs] at hinner
    have hflat : flatPairs ent (seg :: rest) =
        (List.range seg.offset.length).map (fun i => (i, ent seg i)) ++
          flatPairs ent rest := by
      simp [flatPairs]
    simp only [iterOuter, hinner, hflat, visitListS_append]
    by_cases hstop : (visitListS cb ((List.range seg.offset.length).map
        (fun i => (i, ent seg i)))).2
    · simp [hstop]
    · simp [hstop, ih hrest]

theorem iterInnerRev_step (bufBytes : List Nat) (seg : Segment)
    (cb : Nat → LogEntry → Bool) (idx fuel : Nat) (p : Pos) (e : LogEntry)
    (hget : seg.offset.get? idx = some p)
    (hread : iterRead bufBytes seg idx p = .ok e) :
    iterInnerRev bufBytes seg cb idx (fuel + 1) =
      if cb idx e then
        match idx with
        | 0 => ([(0, e)], false, none)
        | i + 1 =>
          ((i + 1, e) :: (iterInnerRev bufBytes seg cb i fuel).1,
           (iterInnerRev bufBytes seg cb i fuel).2.1,
           (iterInnerRev bufBytes seg cb i fuel).2.2)
      else ([(idx, e)], true, none) := by
  unfold iterRead at hread
  rw [List.get?_eq_getElem?] at hget
  by_cases hb : seg.OnActiveBuffer idx
  · rw [if_pos hb] at hread
    cases idx with
    | zero => simp [iterInnerRev, hget, hb, hread]
    | succ i => simp [iterInnerRev, hget, hb, hread]
  · rw [if_neg hb] at hread
    rw [Bool.not_eq_true] at hb
    cases idx with
    | zero => simp [iterInnerRev, hget, hb, hread]
    | succ i => simp [iterInnerRev, hget, hb, hread]

theorem iterInnerRev_visits (bufBytes : List Nat) (seg : Segment)
    (cb : Nat → LogEntry → Bool) (ent : Nat → LogEntry)
    (h : ∀ i, i < seg.offset.length →
      iterRead bufBytes seg i (seg.offset.getD i dummyPos) = .ok (ent i)) :
    ∀ fuel idx, idx < fuel → idx < seg.offset.length →
      iterInnerRev bufBytes seg cb idx fuel =
        ((visitListS cb (((List.range (idx + 1)).reverse).map
            (fun i => (i, ent i)))).1,
         (visitListS cb (((List.range (idx + 1)).reverse).map
            (fun i => (i, ent i)))).2,
         none) := by
  intro fuel
  induction fuel with
  | zero => intro idx h1 h2; omega
  | succ fuel ih =>
    intro idx hfu hlen
    have hget : seg.offset.get? idx = some (seg.offset.get ⟨idx, hlen⟩) :=
      List.get?_eq_get hlen
    have hpd : seg.offset.getD idx dummyPos = seg.offset.get ⟨idx, hlen⟩ := by
      rw [List.getD_eq_getElem?_getD, ← List.get?_eq_getElem?, hget]
      rfl
    have hread := h idx hlen
    rw [hpd] at hread
    rw [iterInnerRev_step bufBytes seg cb idx fuel _ (ent idx) hget hread]
    have hrev : (List.range (idx + 1)).reverse = idx :: (List.range idx).reverse := by
      rw [List.range_succ, List.reverse_append]
      simp
    rw [hrev, List.map_cons]
    cases idx with
    | zero => by_cases hcb : cb 0 (ent 0) <;> simp [visitListS, hcb]
    | succ i =>
      by_cases hcb : cb (i + 1) (ent (i + 1))
      · have hih := ih i (by omega) (by omega)
        simp [visitListS, hcb, hih]
      · simp [visitListS, hcb]

theorem iterOuterRev_visits (w : WAL) (cb : Nat → LogEntry → Bool)
    (ent : Segment → Nat → LogEntry) (segs : List Segment)
    (h : ∀ seg ∈ segs, ∀ i, i < seg.offset.length →
      iterRead w.buffer seg i (seg.offset.getD i dummyPos) = .ok (ent seg i)) :
    iterOuterRev w cb segs = ((visitListS cb (flatPairsRev ent segs)).1, none) := by
  induction segs with
  | nil => simp [iterOuterRev, flatPairsRev, visitListS]
  | cons seg rest ih =>
    have hrest : ∀ s ∈ rest, ∀ i, i < s.offset.length →
        iterRead w.buffer s i (s.offset.getD i dummyPos) = .ok (ent s i) :=
      fun s hs i hi => h s (by simp [hs]) i hi
    by_cases hlen : seg.offset.length = 0
    · have hflat : flatPairsRev ent (seg :: rest) = flatPairsRev ent rest := by
        simp [flatPairsRev, hlen]
      simp [iterOuterRev, hlen, hflat, ih hrest]
    · have hseg : ∀ i, i < seg.offset.length →
          iterRead w.buffer seg i (seg.offset.getD i dummyPos) = .ok (ent seg i) :=
        fun i hi => h seg (by simp) i hi
      have hinner := iterInnerRev_visits w.buffer seg cb (ent seg) hseg
        seg.offset.length (seg.offset.length - 1) (by omega) (by omega)
      rw [show seg.offset.length - 1 + 1 = seg.offset.length by omega] at hinner
      have hflat : flatPairsRev ent (seg :: rest) =
          ((List.range seg.offset.length).reverse).map (fun i => (i, ent seg i)) ++
            flatPairsRev ent rest := by
        simp [flatPairsRev]
      rw [List.map_reverse] at hinner hflat
      simp only [iterOuterRev, hlen, if_neg hlen, hinner, hflat, visitListS_append]
      by_cases hstop : (visitListS cb (((List.range seg.offset.length).map
          (fun i => (i, ent seg i))).reverse)).2
      · simp [hstop]
      · simp [hstop, ih hrest]

theorem flatPairsRev_reverse (ent : Segment → Nat → LogEntry) (segs : List Segment) :
    flatPairsRev ent segs.reverse = (flatPairs ent segs).reverse := by
  induction segs with
  | nil => rfl
  | cons seg rest ih =>
    simp only [flatPairsRev, flatPairs, List.reverse_cons, List.flatMap_append,
               List.flatMap_cons, List.flatMap_nil, List.append_nil,
               List.reverse_append] at ih ⊢
    rw [ih, List.map_reverse]

/-- C8 counterexample: the claim as stated says `Iter`/`IterReverse` invoke
the callback on every record.  In `cW2` two records are stored, but the
boundary record at `offset = currSize` is misclassified as flushed: its
file read yields `io.EOF`, which silently breaks the per-segment loop, so
`Iter` visits only one record and `IterReverse` — which meets the boundary
record first — visits none, both without reporting any error. -/
theorem c8_skipped_record :
    cW2.pos = 2 ∧
    (cW2.Iter (fun _ _ => true)).1.length = 1 ∧
    (cW2.Iter (fun _ _ => true)).2 = none ∧
    (cW2.IterReverse (fun _ _ => true)).1.length = 0 ∧
    (cW2.IterReverse (fun _ _ => true)).2 = none := by decide

/-- C8 (amended): in every state whose records all decode through the
iterators' reads (`readsOk` — which excludes the misclassified
flush-boundary records of the counterexample), `Iter` invokes the callback
on every record in exact insertion order, `IterReverse` on the strictly
reversed sequence, and in both directions a `false` return halts iteration
immediately, across segment boundaries (the visited trace is the claimed
`visitListS` prefix of the full record list, resp. of its reverse). -/
theorem c8_iter_order (w : WAL) (cb : Nat → LogEntry → Bool)
    (ent : Segment → Nat → LogEntry) (h : readsOk w ent) :
    w.Iter cb = ((visitListS cb (flatPairs ent w.segments)).1, none) ∧
    w.IterReverse cb = ((visitListS cb ((flatPairs ent w.segments).reverse)).1, none) := by
  constructor
  · exact iterOuter_visits w cb ent w.segments h
  · have hrev : ∀ seg ∈ w.segments.reverse, ∀ i, i < seg.offset.length →
        iterRead w.buffer seg i (seg.offset.getD i dummyPos) = .ok (ent seg i) :=
      fun s hs i hi => h s (List.mem_reverse.mp hs) i hi
    have hmain := iterOuterRev_visits w cb ent w.segments.reverse hrev
    rw [flatPairsRev_reverse] at hmain
    exact hmain

/-- C8 witness: the amended statement at the concrete two-record buffer
state `bW`, whose reads all succeed. -/
theorem c8_iter_order_witness :
    bW.Iter (fun _ _ => true) =
      ((visitListS (fun _ _ => true) (flatPairs bEnt bW.segments)).1, none) ∧
    bW.IterReverse (fun _ _ => true) =
      ((visitListS (fun _ _ => true) ((flatPairs bEnt bW.segments).reverse)).1, none) :=
  c8_iter_order bW (fun _ _ => true) bEnt (by decide)

end WalProof
